import Mathlib

set_option maxHeartbeats 1000000

/-!
Shallow embedding of the instrument-response convolution core of the
threeML spectral-fitting toolkit, together with the operator-composition
machinery of `spectralModels.py`.

The OGIP response module itself (`threeML/plugins/OGIP/response.py`) is
not part of this source excerpt: only its test-suite
(`threeML/test/test_AAA_response.py`) is.  The definitions concerning
`TimeInterval`, `InstrumentResponse` and `InstrumentResponseSet` are
therefore modelled from the specification, with the behaviours that the
repository's own tests pin down taking precedence where the two
disagree (each such point is flagged in the relevant doc comment).
Real-valued quantities are modelled as exact rationals `ℚ`.

`CompositeModel` (parameter-map merging, operator composition, the
integral of a composite) is embedded directly from
`threeML/models/spectralModels.py`, which is part of the excerpt.
-/

/-- Modelled from the spec: `TimeInterval`, an immutable interval
`[start, stop]` of rational time bounds (the Python class lives in
`threeML/utils/time_interval.py`, not in this excerpt). -/
structure TimeInterval where
  start : ℚ
  stop : ℚ
deriving DecidableEq

namespace TimeInterval

/-- Modelled from the spec: shift-by-scalar returns a new interval with
both bounds translated (`TimeInterval(a, b) + dt`). -/
def shiftBy (t : TimeInterval) (dt : ℚ) : TimeInterval :=
  ⟨t.start + dt, t.stop + dt⟩

/-- Modelled from the spec: overlap test between two intervals — they
overlap when the intersection has positive length. -/
def overlapsWith (a b : TimeInterval) : Bool :=
  decide (max a.start b.start < min a.stop b.stop)

/-- Modelled from the spec: the intersection of two overlapping
intervals. -/
def intersect (a b : TimeInterval) : TimeInterval :=
  ⟨max a.start b.start, min a.stop b.stop⟩

end TimeInterval

/-- Modelled from the spec: `InstrumentResponse` owns one
energy-redistribution matrix (shape `n_channels × n_mc_energy_bins`),
its measured-energy bin edges `ebounds` (`n_channels + 1` entries), its
true-energy bin edges `monte_carlo_energies` (`n_mc_energy_bins + 1`
entries), an optional coverage `TimeInterval` and optional provenance
filenames. -/
structure InstrumentResponse where
  matrix : List (List ℚ)
  ebounds : List ℚ
  monte_carlo_energies : List ℚ
  coverage_interval : Option TimeInterval
  rsp_filename : Option String
  arf_filename : Option String
deriving DecidableEq

/-- Shape check of a candidate matrix against the two edge arrays:
`n_channels = len(ebounds) - 1` rows, each of
`n_mc_energy_bins = len(monte_carlo_energies) - 1` columns.  This is the
spec's construction/`replace_matrix` shape invariant. -/
def matrixShapeMatches (m : List (List ℚ)) (ebounds mc : List ℚ) : Bool :=
  m.length == ebounds.length - 1 &&
    m.all fun row => row.length == mc.length - 1

/-- A list of edges is strictly increasing (spec: "Edges must each be
strictly increasing"). -/
def strictlyIncreasing (l : List ℚ) : Prop :=
  l.Chain' (· < ·)

instance : DecidablePred strictlyIncreasing := fun l =>
  inferInstanceAs (Decidable (l.Chain' (· < ·)))

/-- The construction invariant of a validated `InstrumentResponse`
(shape match and strictly increasing edge arrays; `NaN` has no
counterpart in `ℚ`, so the no-`NaN` requirement is vacuous here). -/
def InstrumentResponse.isValid (rsp : InstrumentResponse) : Prop :=
  matrixShapeMatches rsp.matrix rsp.ebounds rsp.monte_carlo_energies = true ∧
    strictlyIncreasing rsp.ebounds ∧
    strictlyIncreasing rsp.monte_carlo_energies

instance (rsp : InstrumentResponse) : Decidable rsp.isValid := by
  unfold InstrumentResponse.isValid
  infer_instance

/-- Modelled from the spec: the photon fluence expected in each
true-energy bin — the stored integral function evaluated on every
consecutive pair `[monte_carlo_energies[j], monte_carlo_energies[j+1]]`
of true-energy edges. -/
def fluences (mc : List ℚ) (f : ℚ → ℚ → ℚ) : List ℚ :=
  (mc.zip mc.tail).map fun p => f p.1 p.2

/-- Pointwise product-sum of two lists (a row of the matrix against the
fluence vector). -/
def dotProd (xs ys : List ℚ) : ℚ :=
  ((xs.zip ys).map fun p => p.1 * p.2).sum

/-- Modelled from the spec: `convolve()` — predicted counts per channel
`i` as the matrix-weighted sum `counts[i] = Σ_j matrix[i,j] *
fluence[j]`.  The stored integral function of `set_function` is passed
explicitly (state passing) instead of being held as mutable state. -/
def InstrumentResponse.convolve (rsp : InstrumentResponse) (f : ℚ → ℚ → ℚ) : List ℚ :=
  rsp.matrix.map fun row => dotProd row (fluences rsp.monte_carlo_energies f)

/-- Modelled from the spec: `energy_to_channel(energy)` returns the
zero-based index `i` with `ebounds[i] <= energy < ebounds[i+1]`,
clamping energies below the first edge to channel `0`.  The result for
energies at or above the last edge follows the repository's own test
(`test__instrument_response_energy_to_channel` expects channel `3` for
energy `100.0` with four edges, i.e. the index `n_channels`, one past
the last channel) rather than the spec's clamp to `n_channels - 1`.
The count-of-edges-below formulation mirrors a right-sided sorted
lookup; `ℕ` subtraction provides the clamp at `0`. -/
def InstrumentResponse.energy_to_channel (rsp : InstrumentResponse) (energy : ℚ) : ℕ :=
  (rsp.ebounds.countP fun edge => decide (edge ≤ energy)) - 1

/-- Modelled from the spec: `replace_matrix(new_matrix)` validates that
the new matrix's shape matches the existing edges exactly and fails
otherwise; on success the stored matrix is replaced and every other
field kept. -/
def InstrumentResponse.replace_matrix (rsp : InstrumentResponse)
    (new_matrix : List (List ℚ)) : Except String InstrumentResponse :=
  if matrixShapeMatches new_matrix rsp.ebounds rsp.monte_carlo_energies then
    Except.ok { rsp with matrix := new_matrix }
  else
    Except.error "replace_matrix: shape mismatch"

/-- The test-suite's matrix `np.diagflat([1, 2, 3, 4])[:3, :]`. -/
def testMatrix : List (List ℚ) :=
  [[1, 0, 0, 0], [0, 2, 0, 0], [0, 0, 3, 0]]

/-- The test-suite's Monte-Carlo edges `[1, 2, 3, 4, 5]`. -/
def testMcEnergies : List ℚ := [1, 2, 3, 4, 5]

/-- The test-suite's channel edges `[1.0, 2.5, 4.5, 5.0]`. -/
def testEbounds : List ℚ := [1, 5/2, 9/2, 5]

/-- The test-suite's bare response (no coverage interval). -/
def testResponse : InstrumentResponse :=
  ⟨testMatrix, testEbounds, testMcEnergies, none, none, none⟩

/-- Split a character list on a separator character (the dash of the
spec's `"t1 - t2"` interval expressions). -/
def splitOnChar (sep : Char) : List Char → List (List Char)
  | [] => [[]]
  | c :: cs =>
    let rest := splitOnChar sep cs
    if c = sep then [] :: rest
    else (c :: rest.headD []) :: rest.tail

/-- Strip leading and trailing blanks (the spec's whitespace-tolerant
interval parsing). -/
def trimSpaces (cs : List Char) : List Char :=
  ((cs.dropWhile fun c => c = ' ').reverse.dropWhile fun c => c = ' ').reverse

/-- Read a non-empty all-digit character list as a natural number. -/
def digitsToNat (cs : List Char) : Option ℕ :=
  if cs.isEmpty then none
  else cs.foldlM (fun acc c =>
    if c.isDigit then some (acc * 10 + (c.toNat - 48)) else none) 0

/-- The integer part, fractional digits and fractional length of a
decimal literal such as `25.0`. -/
def parseDecimalParts (cs : List Char) : Option (ℕ × ℕ × ℕ) :=
  match splitOnChar '.' (trimSpaces cs) with
  | [a] => (digitsToNat a).map fun n => (n, 0, 0)
  | [a, b] =>
    match digitsToNat a, digitsToNat b with
    | some n, some f => some (n, f, b.length)
    | _, _ => none
  | _ => none

/-- Assemble a parsed decimal into an exact rational. -/
def ratOfParts (p : ℕ × ℕ × ℕ) : ℚ :=
  (p.1 : ℚ) + (p.2.1 : ℚ) / (10 : ℚ) ^ p.2.2

/-- A decimal literal as an exact rational (floating-point text is
modelled exactly over `ℚ`). -/
def parseDecimal (cs : List Char) : Option ℚ :=
  (parseDecimalParts cs).map ratOfParts

/-- Modelled from the spec: parse one interval expression of the form
`"t1 - t2"` (dash-separated decimal bounds, whitespace-tolerant) into a
`TimeInterval`. -/
def parseTimeInterval (s : String) : Option TimeInterval :=
  match splitOnChar '-' s.toList with
  | [a, b] =>
    match parseDecimal a, parseDecimal b with
    | some t1, some t2 => some ⟨t1, t2⟩
    | _, _ => none
  | _ => none

/-- Parse every requested interval expression, failing if any one of
them is malformed. -/
def parseIntervals : List String → Option (List TimeInterval)
  | [] => some []
  | s :: rest =>
    match parseTimeInterval s, parseIntervals rest with
    | some iv, some ivs => some (iv :: ivs)
    | _, _ => none

/-- Modelled from the spec: `InstrumentResponseSet` stores the
responses sorted ascending by coverage start plus the scalar reference
time.  The `exposure_getter`/`counts_getter` functions are passed to
the weighting operations explicitly (state passing) instead of being
stored in the structure. -/
structure InstrumentResponseSet where
  responses : List InstrumentResponse
  reference_time : ℚ

/-- Sort key of a response: the start of its coverage interval
(responses without coverage — which the constructor rejects — key as
`0`). -/
def coverageStart (rsp : InstrumentResponse) : ℚ :=
  (rsp.coverage_interval.map TimeInterval.start).getD 0

/-- Modelled from the spec: the constructor sorts responses ascending
by coverage start before storing. -/
def sortByCoverageStart (rsps : List InstrumentResponse) : List InstrumentResponse :=
  rsps.insertionSort fun a b => coverageStart a ≤ coverageStart b

/-- Modelled from the spec: the sorted coverage intervals must be
mutually contiguous — the stop of each equals the start of the next
(the spec's floating tolerance is exact equality over `ℚ`); a gap or an
overlap breaks the chain. -/
def contiguousCoverage (l : List TimeInterval) : Prop :=
  l.Chain' fun a b => a.stop = b.start

instance : DecidablePred contiguousCoverage := fun l =>
  inferInstanceAs (Decidable (l.Chain' _))

/-- Modelled from the spec: the `InstrumentResponseSet` constructor.
It fails with a runtime-class error — producing no set — when any
supplied response lacks a coverage interval, or when the coverage
intervals sorted ascending by start are not mutually contiguous;
otherwise it stores the sorted responses. -/
def buildResponseSet (rsps : List InstrumentResponse) (ref : ℚ) :
    Except String InstrumentResponseSet :=
  if rsps.any fun r => r.coverage_interval.isNone then
    Except.error "all matrices in the set need a coverage interval"
  else
    let sorted := sortByCoverageStart rsps
    if contiguousCoverage (sorted.filterMap fun r => r.coverage_interval) then
      Except.ok ⟨sorted, ref⟩
    else
      Except.error "coverage intervals are not contiguous (gap or overlap)"

/-- Modelled from the spec: the weight one response receives from one
requested interval.  The response's coverage interval is first moved
into the reference-time frame and intersected with the requested
interval; when they overlap, the getter is evaluated on the overlap
segment, otherwise the weight is `0`.  The getters receive
reference-frame bounds: the repository's tests
(`test_response_set_weighting_with_reference_time`,
`test_response_set_weighting_with_disjoint_intervals`) pin the weights
to values such as `counts_getter(5.0, 10.0)` even when
`reference_time = 123.456`, overriding the spec's "absolute time"
wording. -/
def segmentWeight (getter : ℚ → ℚ → ℚ) (ref : ℚ) (rsp : InstrumentResponse)
    (iv : TimeInterval) : ℚ :=
  match rsp.coverage_interval with
  | none => 0
  | some cov =>
    let rel : TimeInterval := ⟨cov.start - ref, cov.stop - ref⟩
    if rel.overlapsWith iv then
      let ov := rel.intersect iv
      getter ov.start ov.stop
    else 0

/-- The weight vector (one entry per stored response) contributed by a
single requested interval. -/
def perIntervalWeights (s : InstrumentResponseSet) (getter : ℚ → ℚ → ℚ)
    (iv : TimeInterval) : List ℚ :=
  s.responses.map fun rsp => segmentWeight getter s.reference_time rsp iv

/-- Element-wise sum of two weight vectors. -/
def vecAdd (xs ys : List ℚ) : List ℚ :=
  List.zipWith (· + ·) xs ys

/-- Modelled from the spec: the accumulated pre-normalisation weight
vector — `weights += <per-interval weights>` over all requested
intervals, starting from the zero vector. -/
def accumulatedWeights (s : InstrumentResponseSet) (getter : ℚ → ℚ → ℚ)
    (ivs : List TimeInterval) : List ℚ :=
  ivs.foldl (fun acc iv => vecAdd acc (perIntervalWeights s getter iv))
    (List.replicate s.responses.length 0)

/-- Entry-wise scaling of a matrix. -/
def matScale (c : ℚ) (m : List (List ℚ)) : List (List ℚ) :=
  m.map fun row => row.map fun x => c * x

/-- Entry-wise sum of two matrices. -/
def matAdd (a b : List (List ℚ)) : List (List ℚ) :=
  List.zipWith (fun ra rb => List.zipWith (· + ·) ra rb) a b

/-- The weight-normalised matrix sum `Σ_k (w_k / Σw) * matrix_k`. -/
def weightedMatrixSum (ws : List ℚ) (mats : List (List (List ℚ))) : List (List ℚ) :=
  match List.zipWith (fun w m => matScale (w / ws.sum) m) ws mats with
  | [] => []
  | m :: ms => ms.foldl matAdd m

/-- Modelled from the spec: the common algorithm of `weight_by_exposure`
and `weight_by_counts` — parse the interval expressions, accumulate the
per-response weights over all requested intervals, normalise by the
total weight, and return a new `InstrumentResponse` carrying the
weight-normalised matrix sum, the first response's edges, and no
coverage interval or provenance. -/
def weightByGetter (s : InstrumentResponseSet) (getter : ℚ → ℚ → ℚ)
    (intervals : List String) : Option InstrumentResponse :=
  match parseIntervals intervals with
  | none => none
  | some ivs =>
    match s.responses with
    | [] => none
    | first :: _ =>
      some
        { matrix := weightedMatrixSum (accumulatedWeights s getter ivs)
            (s.responses.map fun r => r.matrix),
          ebounds := first.ebounds,
          monte_carlo_energies := first.monte_carlo_energies,
          coverage_interval := none,
          rsp_filename := none,
          arf_filename := none }

/-- Modelled from the spec: `weight_by_exposure`, the weighting
algorithm driven by the live-time exposure getter. -/
def InstrumentResponseSet.weight_by_exposure (s : InstrumentResponseSet)
    (exposure_getter : ℚ → ℚ → ℚ) (intervals : List String) :
    Option InstrumentResponse :=
  weightByGetter s exposure_getter intervals

/-- Modelled from the spec: `weight_by_counts`, the identical algorithm
with the counts getter substituted for the exposure getter. -/
def InstrumentResponseSet.weight_by_counts (s : InstrumentResponseSet)
    (counts_getter : ℚ → ℚ → ℚ) (intervals : List String) :
    Option InstrumentResponse :=
  weightByGetter s counts_getter intervals

/-- The test-suite's first response: matrix `m`, coverage `[0, 10]`
shifted by the reference time. -/
def rspA (m : List (List ℚ)) (ref : ℚ) : InstrumentResponse :=
  ⟨m, testEbounds, testMcEnergies, some (TimeInterval.shiftBy ⟨0, 10⟩ ref),
    none, none⟩

/-- The test-suite's second response: matrix `m / 2`, coverage
`[10, 30]` shifted by the reference time. -/
def rspB (m : List (List ℚ)) (ref : ℚ) : InstrumentResponse :=
  ⟨matScale (1/2) m, testEbounds, testMcEnergies,
    some (TimeInterval.shiftBy ⟨10, 30⟩ ref), none, none⟩

/-- The test-suite's non-contiguous pair: coverage `[0, 10]` followed
by `[20, 30]` leaves a gap. -/
def rspGapC : InstrumentResponse :=
  ⟨testMatrix, testEbounds, testMcEnergies, some ⟨0, 10⟩, none, none⟩

/-- Second element of the non-contiguous pair. -/
def rspGapD : InstrumentResponse :=
  ⟨testMatrix, testEbounds, testMcEnergies, some ⟨20, 30⟩, none, none⟩

/-- Translate a response's coverage interval by a scalar (used to
restate a set in a different absolute-time frame). -/
def shiftCoverage (rsp : InstrumentResponse) (dt : ℚ) : InstrumentResponse :=
  { rsp with
    coverage_interval := rsp.coverage_interval.map fun c => c.shiftBy dt }

/-- The test-suite's exposure getter, a fixed 10% deadtime:
`0.9 * (t2 - t1)`. -/
def testExposureGetter (t1 t2 : ℚ) : ℚ :=
  9/10 * (t2 - t1)

/-- The test-suite's counts getter
`1.23 * 0.5 * (t2**2 - t1**2) * 0.9`. -/
def testCountsGetter (t1 t2 : ℚ) : ℚ :=
  123/100 * (1/2) * (t2 ^ 2 - t1 ^ 2) * (9/10)

/-- Decimal digit character (`"%s" % i` rendering). -/
def natDigitChar (d : ℕ) : Char := Char.ofNat (48 + d)

/-- Decimal digits of a natural number, fuel-structured so the kernel
can evaluate it. -/
def natDigitsAux : ℕ → ℕ → List Char
  | 0, _ => []
  | fuel + 1, n =>
    if n < 10 then [natDigitChar n]
    else natDigitsAux fuel (n / 10) ++ [natDigitChar (n % 10)]

/-- Decimal rendering of a natural number. -/
def natDigits (n : ℕ) : List Char := natDigitsAux (n + 1) n

/-- Decimal rendering of an integer (Python `"%s" % i`). -/
def intDigits : ℤ → List Char
  | Int.ofNat n => natDigits n
  | Int.negSucc n => '-' :: natDigits (n + 1)

/-- The value read back from a digit list (used to prove the decimal
rendering injective). -/
def digitsVal (cs : List Char) : ℕ :=
  cs.foldl (fun a c => a * 10 + (c.toNat - 48)) 0

/-- Python `int(text)` on a split token: an optional minus sign
followed by decimal digits (Python also tolerates surrounding
whitespace and a plus sign, which cannot appear in these underscore
tokens). Raises — modelled as `none` — on anything else. -/
def chrsToInt : List Char → Option ℤ
  | '-' :: rest => (digitsToNat rest).map fun n => -(n : ℤ)
  | cs => (digitsToNat cs).map fun n => (n : ℤ)

/-- The candidate key `tokens[0] + "_%s" % i` of the collision-renaming
scan in `CompositeModel.__init__`. -/
def mkCand (base : List Char) (i : ℤ) : String :=
  ⟨base ++ '_' :: intDigits i⟩

/-- The scan `for i in range(oldNum, 1000)` of
`CompositeModel.__init__` (lines 248-253 of `spectralModels.py`): bind
the first candidate key not yet present; when none is free the loop
ends with the last candidate (`base_999`) still bound; when the range
is empty Python's `newKey` is left undefined or stale (modelled as
`none`).  `fuel` is the number of candidates left, starting at
`1000 - oldNum`. -/
def scanNewKey (taken : List String) (base : List Char) : ℕ → ℤ → Option String
  | 0, _ => none
  | fuel + 1, i =>
    let cand := mkCand base i
    if taken.contains cand then
      if fuel = 0 then some cand
      else scanNewKey taken base fuel (i + 1)
    else some cand

/-- The collision-renaming rule of `CompositeModel.__init__` (lines
244-254 of `spectralModels.py`): a non-colliding key is kept; a
colliding key is split on `"_"` (a plain name `k` is first replaced by
`k + "_1"`), `tokens[1]` is parsed with Python `int` (raising — `none`
— on non-numeric text), and the candidates `tokens[0] + "_%s" % i` for
`i in range(oldNum, 1000)` are scanned for the first free one. -/
def newKeyFor (taken : List String) (k : String) : Option String :=
  if taken.contains k then
    let tokens := splitOnChar '_' k.toList
    let tokens :=
      if tokens.length = 1 then splitOnChar '_' (k.toList ++ ['_', '1'])
      else tokens
    match chrsToInt (tokens.getD 1 []) with
    | none => none
    | some oldNum =>
      scanNewKey taken (tokens.headD []) ((1000 - oldNum).toNat) oldNum
  else some k

/-- `OrderedDict` assignment `d[newKey] = v`: overwrite in place when
the key exists, append otherwise. -/
def odSet {V : Type} (m : List (String × V)) (k : String) (v : V) :
    List (String × V) :=
  if m.any fun p => p.1 == k then
    m.map fun p => if p.1 == k then (k, v) else p
  else m ++ [(k, v)]

/-- The parameter-insertion loop of `CompositeModel.__init__`: every
`(key, value)` pair is bound under `newKeyFor` of the keys already
present. -/
def insertParams {V : Type} (acc : List (String × V)) :
    List (String × V) → Option (List (String × V))
  | [] => some acc
  | (k, v) :: rest =>
    match newKeyFor (acc.map Prod.fst) k with
    | none => none
    | some nk => insertParams (odSet acc nk v) rest

/-- `CompositeModel.__init__`'s parameter merge: both components'
ordered parameter maps inserted in order into an initially empty
`OrderedDict` (numeric operands are skipped by the source loop and
contribute an empty list here). -/
def mergeParams {V : Type} (ps qs : List (String × V)) :
    Option (List (String × V)) :=
  insertParams [] (ps ++ qs)

/-- The four operator tags of `SpectralModel` arithmetic composition
(`operator.add/sub/mul/div`). -/
inductive PyOp
  | add
  | sub
  | mul
  | div
deriving DecidableEq

/-- Apply an operator tag as `CompositeModel.__call__` does
(`self.operator(self.oneCall(x), self.twoCall(x))`); `operator.div` by
zero raises `ZeroDivisionError`, modelled as `none`. -/
def PyOp.apply : PyOp → ℚ → ℚ → Option ℚ
  | .add, a, b => some (a + b)
  | .sub, a, b => some (a - b)
  | .mul, a, b => some (a * b)
  | .div, a, b => if b = 0 then none else some (a / b)

/-- The capability surface of a `SpectralModel` that
`CompositeModel.__init__` consumes: `__call__`, `integral` and the
ordered parameter map, with parameter values of an abstract type
`V` standing for `Parameter` objects. -/
structure PyModel (V : Type) where
  call : ℚ → ℚ
  integral : ℚ → ℚ → ℚ
  parameters : List (String × V)

/-- An operand of `CompositeModel.__init__`: a plain `int`/`float`, or
a model (any other type raises `NotImplementedError` in the source and
is outside this type). -/
inductive Operand (V : Type)
  | num (q : ℚ)
  | mdl (m : PyModel V)

/-- Python `float(component)`: the value for numbers, `TypeError`
(modelled `none`) for models. -/
def pyFloat {V : Type} : Operand V → Option ℚ
  | .num q => some q
  | .mdl _ => none

/-- `oneCall`/`twoCall`: a numeric operand becomes the constant
function of its `float` value (the lambda captures the stable
parameter, not the loop variable), a model operand contributes its
`__call__`. -/
def operandCall {V : Type} : Operand V → ℚ → ℚ
  | .num q, _ => q
  | .mdl m, x => m.call x

/-- The parameters contributed by an operand (numeric operands are
skipped by the merge loop). -/
def operandParams {V : Type} : Operand V → List (String × V)
  | .num _ => []
  | .mdl m => m.parameters

/-- One entry of the `integrals` list of `CompositeModel.__init__`
(lines 277-284).  The lambda appended for a numeric component is
`lambda e1,e2: float(component)` where `component` is the *loop
variable*, captured late by Python: at call time it holds the second
operand, so the numeric branch evaluates `float(two)` (a `TypeError`,
`none`, when `two` is a model). A model component contributes its
bound `integral` method, unaffected by late binding. -/
def operandIntegral {V : Type} (two : Operand V) :
    Operand V → ℚ → ℚ → Option ℚ
  | .num _, _, _ => pyFloat two
  | .mdl m, e1, e2 => some (m.integral e1 e2)

/-- The result of `CompositeModel.__init__`: evaluation closure,
integral closure and merged parameter map. -/
structure PyComposite (V : Type) where
  callFn : ℚ → Option ℚ
  integralFn : ℚ → ℚ → Option ℚ
  parameters : List (String × V)

/-- `CompositeModel.__init__(one, two, operator)`: merge the parameter
maps (an exception there aborts construction), store the operator
closure `__call__ = operator(oneCall(x), twoCall(x))` and the integral
closure `integral = integrals[0](e1,e2) + integrals[1](e1,e2)`. -/
def compositeInit {V : Type} (one two : Operand V) (op : PyOp) :
    Option (PyComposite V) :=
  match mergeParams (operandParams one) (operandParams two) with
  | none => none
  | some params =>
    some
      { callFn := fun x => op.apply (operandCall one x) (operandCall two x),
        integralFn := fun e1 e2 => do
          let a ← operandIntegral two one e1 e2
          let b ← operandIntegral two two e1 e2
          pure (a + b),
        parameters := params }

/-- `SpectralModel.__rsub__(b)` (line 191): `b - m` builds
`CompositeModel(self, b, operator.sub)` — the operands are not
commuted. -/
def pyRsub {V : Type} (m : PyModel V) (b : ℚ) : Option (PyComposite V) :=
  compositeInit (.mdl m) (.num b) PyOp.sub

/-- `SpectralModel.__rdiv__(b)` (line 197): `b / m` builds
`CompositeModel(self, b, operator.div)` — the operands are not
commuted. -/
def pyRdiv {V : Type} (m : PyModel V) (b : ℚ) : Option (PyComposite V) :=
  compositeInit (.mdl m) (.num b) PyOp.div

/-- A key shape under which the renaming scan is well defined: either a
plain name without underscore, or one whose second underscore token is
a number at most `500` (leaving room in the `range(oldNum, 1000)`
scan). -/
def keyWellFormed (k : String) : Prop :=
  (splitOnChar '_' k.toList).length = 1 ∨
    ∃ n : ℕ, n ≤ 500 ∧
      chrsToInt ((splitOnChar '_' k.toList).getD 1 []) = some (n : ℤ)

/-- A sample model with a parameter map, for concrete instances. -/
def sampleModelK : PyModel ℕ :=
  ⟨fun x => x, fun e1 e2 => e2 - e1, [("K", 0), ("index", 1)]⟩

/-- A second sample model whose parameter name collides with
`sampleModelK`'s. -/
def sampleModelK2 : PyModel ℕ :=
  ⟨fun x => 2 * x, fun e1 e2 => e2 ^ 2 - e1 ^ 2, [("K", 2)]⟩

/-- Unfolding `fluences` on a list with at least two edges. -/
theorem fluences_cons (f : ℚ → ℚ → ℚ) (a b : ℚ) (tl : List ℚ) :
    fluences (a :: b :: tl) f = f a b :: fluences (b :: tl) f := rfl

/-- The fluence vector has one entry per true-energy bin. -/
theorem fluences_length (mc : List ℚ) (f : ℚ → ℚ → ℚ) :
    (fluences mc f).length = mc.length - 1 := by
  cases mc with
  | nil => rfl
  | cons a tl =>
    simp only [fluences, List.length_map, List.length_zip, List.tail_cons,
      List.length_cons]
    omega

/-- Entry `j` of the fluence vector is the integral function applied to
the `j`-th pair of consecutive Monte-Carlo edges. -/
theorem fluences_getD (f : ℚ → ℚ → ℚ) :
    ∀ (mc : List ℚ) (j : ℕ), j < mc.length - 1 →
      (fluences mc f).getD j 0 = f (mc.getD j 0) (mc.getD (j + 1) 0)
  | [], j, h => by simp at h
  | [_], j, h => by simp at h
  | _ :: b :: tl, 0, _ => by simp [fluences_cons]
  | a :: b :: tl, j + 1, h => by
    have ih := fluences_getD f (b :: tl) j (by simp at h ⊢; omega)
    simpa [fluences_cons] using ih

/-- `dotProd` of two lists of equal length is the index-wise
product-sum. -/
theorem dotProd_eq_sum :
    ∀ (xs ys : List ℚ), xs.length = ys.length →
      dotProd xs ys = ∑ j ∈ Finset.range xs.length, xs.getD j 0 * ys.getD j 0
  | [], ys, _ => by simp [dotProd]
  | x :: xs, [], h => by simp at h
  | x :: xs, y :: ys, h => by
    have ih := dotProd_eq_sum xs ys (by simpa using h)
    simp only [dotProd, List.zip_cons_cons, List.map_cons, List.sum_cons,
      List.length_cons] at ih ⊢
    rw [Finset.sum_range_succ']
    simp [ih]
    ring

example : testResponse.convolve (fun e1 e2 => e2 - e1) = [1, 2, 3] := by
  norm_num [InstrumentResponse.convolve, dotProd, fluences, testResponse,
    testMatrix, testMcEnergies, List.zip]

/-- C1: for every `InstrumentResponse` whose matrix has `n_channels`
rows (one per channel) and `n_mc_energy_bins` columns, and every stored
integral function `f`, `convolve` returns an array of length
`n_channels` whose `i`-th entry is `Σ_j matrix[i,j] *
f(monte_carlo_energies[j], monte_carlo_energies[j+1])`; instantiated at
the test-suite's constant-rate integral function, diagonal matrix and
edges `[1,2,3,4,5]` it yields `[1.0, 2.0, 3.0]`. -/
theorem convolve_length_and_entries (rsp : InstrumentResponse) (f : ℚ → ℚ → ℚ)
    (hrows : rsp.matrix.length = rsp.ebounds.length - 1)
    (hcols : ∀ row ∈ rsp.matrix, row.length = rsp.monte_carlo_energies.length - 1) :
    (rsp.convolve f).length = rsp.ebounds.length - 1 ∧
      (∀ i, i < (rsp.convolve f).length →
        (rsp.convolve f).getD i 0 =
          ∑ j ∈ Finset.range (rsp.monte_carlo_energies.length - 1),
            (rsp.matrix.getD i []).getD j 0 *
              f (rsp.monte_carlo_energies.getD j 0)
                (rsp.monte_carlo_energies.getD (j + 1) 0)) ∧
      testResponse.convolve (fun e1 e2 => e2 - e1) = [1, 2, 3] := by
  refine ⟨by simpa [InstrumentResponse.convolve] using hrows, ?_, ?_⟩
  · intro i hi
    have hlen : i < rsp.matrix.length := by
      simpa [InstrumentResponse.convolve] using hi
    have hrow : rsp.matrix.getD i [] = rsp.matrix[i] :=
      List.getD_eq_getElem _ _ hlen
    have hconv : (rsp.convolve f).getD i 0 =
        dotProd rsp.matrix[i] (fluences rsp.monte_carlo_energies f) := by
      rw [InstrumentResponse.convolve,
        List.getD_eq_getElem _ _ (by simpa [InstrumentResponse.convolve] using hi),
        List.getElem_map]
    have hrowlen : rsp.matrix[i].length = rsp.monte_carlo_energies.length - 1 :=
      hcols _ (List.getElem_mem hlen)
    rw [hconv, dotProd_eq_sum _ _ (by rw [hrowlen, fluences_length]), hrowlen]
    refine Finset.sum_congr rfl fun j hj => ?_
    rw [Finset.mem_range] at hj
    rw [fluences_getD f _ j hj, hrow]
  · norm_num [InstrumentResponse.convolve, dotProd, fluences, testResponse,
      testMatrix, testMcEnergies, List.zip]

/-- Witness for C1: the hypotheses hold at the test-suite response, and
the theorem applied there yields the concrete convolution
`[1.0, 2.0, 3.0]`. -/
theorem convolve_length_and_entries_witness :
    testResponse.convolve (fun e1 e2 => e2 - e1) = [1, 2, 3] :=
  (convolve_length_and_entries testResponse (fun e1 e2 => e2 - e1)
    (by norm_num [testResponse, testMatrix, testEbounds])
    (by
      intro row hrow
      simp only [testResponse, testMatrix] at hrow
      fin_cases hrow <;> simp [testResponse, testMcEnergies])).2.2

example : testResponse.energy_to_channel (3/2) = 0 := by
  norm_num [InstrumentResponse.energy_to_channel, testResponse, testEbounds,
    List.countP_cons, List.countP_nil]
example : testResponse.energy_to_channel 100 = 3 := by
  norm_num [InstrumentResponse.energy_to_channel, testResponse, testEbounds,
    List.countP_cons, List.countP_nil]
example : testResponse.isValid := by
  norm_num [InstrumentResponse.isValid, testResponse, testEbounds, testMatrix,
    testMcEnergies, matrixShapeMatches, strictlyIncreasing, List.chain'_cons]

/-- `countP` is monotone in the predicate. -/
theorem countP_le_countP (p q : ℚ → Bool) :
    ∀ l : List ℚ, (∀ a, p a = true → q a = true) → l.countP p ≤ l.countP q
  | [], _ => Nat.le_refl _
  | a :: tl, h => by
    have ih := countP_le_countP p q tl h
    simp only [List.countP_cons]
    by_cases hpa : p a = true
    · simp only [hpa, h a hpa, if_true]
      omega
    · rw [if_neg hpa]
      split_ifs <;> omega

/-- On a strictly sorted list, the number of entries `≤ e` is `i + 1`
when `e` lies in the `i`-th bin. -/
theorem countP_sorted_mid (e : ℚ) :
    ∀ l : List ℚ, l.Pairwise (· < ·) →
      ∀ i, i + 1 < l.length → l.getD i 0 ≤ e → e < l.getD (i + 1) 0 →
        l.countP (fun edge => decide (edge ≤ e)) = i + 1
  | [], _, i, h, _, _ => by simp at h
  | a :: tl, hp, 0, h, hle, hlt => by
    simp only [List.getD_cons_zero] at hle
    simp only [List.getD_cons_succ] at hlt
    have htl : tl.countP (fun edge => decide (edge ≤ e)) = 0 := by
      rw [List.countP_eq_zero]
      intro x hx
      cases tl with
      | nil => simp at hx
      | cons b tl2 =>
        have hb : e < b := by simpa using hlt
        have hbx : b ≤ x := by
          rcases List.mem_cons.mp hx with rfl | hx
          · exact le_refl _
          · exact le_of_lt (((List.pairwise_cons.mp (hp.tail)).1) x hx)
        simpa using not_le.mpr (lt_of_lt_of_le hb hbx)
    simp [List.countP_cons, htl, hle]
  | a :: tl, hp, j + 1, h, hle, hlt => by
    simp only [List.getD_cons_succ] at hle hlt
    have hjlen : j + 1 < tl.length := by simp at h; omega
    have ih := countP_sorted_mid e tl (List.pairwise_cons.mp hp).2 j hjlen hle hlt
    have ha : a ≤ e := by
      have hmem : tl.getD j 0 = tl[j] := List.getD_eq_getElem _ _ (by omega)
      have : a < tl[j] :=
        (List.pairwise_cons.mp hp).1 _ (List.getElem_mem (by omega))
      rw [hmem] at hle
      exact le_of_lt (lt_of_lt_of_le this hle)
    simp [List.countP_cons, ih, ha]

/-- On a strictly sorted list, no entry is `≤ e` when `e` is below the
head. -/
theorem countP_sorted_below (e : ℚ) (l : List ℚ) (hp : l.Pairwise (· < ·))
    (h : e < l.getD 0 0) :
    l.countP (fun edge => decide (edge ≤ e)) = 0 := by
  cases l with
  | nil => rfl
  | cons a tl =>
    rw [List.countP_eq_zero]
    intro x hx
    simp only [List.getD_cons_zero] at h
    have hax : a ≤ x := by
      rcases List.mem_cons.mp hx with rfl | hx
      · exact le_refl _
      · exact le_of_lt ((List.pairwise_cons.mp hp).1 x hx)
    simpa using not_le.mpr (lt_of_lt_of_le h hax)

/-- On a strictly sorted nonempty list, every entry is `≤ e` when `e`
is at or above the last entry. -/
theorem countP_sorted_above (e : ℚ) (l : List ℚ) (hp : l.Pairwise (· < ·))
    (hne : l ≠ []) (h : l.getD (l.length - 1) 0 ≤ e) :
    l.countP (fun edge => decide (edge ≤ e)) = l.length := by
  rw [List.countP_eq_length]
  intro x hx
  rcases List.mem_iff_getElem.mp hx with ⟨k, hk, rfl⟩
  have hlen : 0 < l.length := List.length_pos.mpr hne
  have hlast : l.getD (l.length - 1) 0 = l[l.length - 1] :=
    List.getD_eq_getElem _ _ (by omega)
  rw [hlast] at h
  by_cases hkl : k = l.length - 1
  · subst hkl
    simpa using h
  · have hklt : k < l.length - 1 := by omega
    have := (List.pairwise_iff_getElem.mp hp) k (l.length - 1) hk (by omega) hklt
    simpa using le_of_lt (lt_of_lt_of_le this h)

/-- C4 (amended): for every response with strictly increasing channel
edges, `energy_to_channel` is monotone non-decreasing in energy,
returns the zero-based index `i` with `ebounds[i] <= energy <
ebounds[i+1]` inside the edge range, and maps energies below the first
edge to channel `0`; energies at or above the last edge map to index
`ebounds.length - 1 = n_channels`, one past the last valid channel,
rather than to the last channel `n_channels - 1` of the original
claim. -/
theorem energy_to_channel_props (rsp : InstrumentResponse)
    (hsorted : strictlyIncreasing rsp.ebounds) :
    (∀ e e', e ≤ e' → rsp.energy_to_channel e ≤ rsp.energy_to_channel e') ∧
    (∀ i e, i + 1 < rsp.ebounds.length → rsp.ebounds.getD i 0 ≤ e →
        e < rsp.ebounds.getD (i + 1) 0 → rsp.energy_to_channel e = i) ∧
    (∀ e, e < rsp.ebounds.getD 0 0 → rsp.energy_to_channel e = 0) ∧
    (∀ e, rsp.ebounds ≠ [] → rsp.ebounds.getD (rsp.ebounds.length - 1) 0 ≤ e →
        rsp.energy_to_channel e = rsp.ebounds.length - 1) := by
  have hpw : rsp.ebounds.Pairwise (· < ·) := List.chain'_iff_pairwise.mp hsorted
  refine ⟨?_, ?_, ?_, ?_⟩
  · intro e e' he
    unfold InstrumentResponse.energy_to_channel
    have hmono := countP_le_countP (fun edge => decide (edge ≤ e))
      (fun edge => decide (edge ≤ e')) rsp.ebounds ?_
    · omega
    · intro a ha
      simp only [decide_eq_true_eq] at ha ⊢
      exact le_trans ha he
  · intro i e h1 h2 h3
    unfold InstrumentResponse.energy_to_channel
    rw [countP_sorted_mid e rsp.ebounds hpw i h1 h2 h3]
    omega
  · intro e he
    unfold InstrumentResponse.energy_to_channel
    rw [countP_sorted_below e rsp.ebounds hpw he]
  · intro e hne hle
    unfold InstrumentResponse.energy_to_channel
    rw [countP_sorted_above e rsp.ebounds hpw hne hle]

/-- Witness for C4: at the test-suite response, energy `2.6` lies in
bin 1 (`2.5 <= 2.6 < 4.5`) and the amended theorem returns
channel 1. -/
theorem energy_to_channel_props_witness :
    testResponse.energy_to_channel (13/5) = 1 :=
  (energy_to_channel_props testResponse
      (by norm_num [testResponse, testEbounds, strictlyIncreasing,
        List.chain'_cons])).2.1 1 (13/5)
    (by norm_num [testResponse, testEbounds])
    (by norm_num [testResponse, testEbounds])
    (by norm_num [testResponse, testEbounds])

/-- C4 counterexample: the claim maps energies at or above the last
edge to the last channel `n_channels - 1`; at the repository's own test
input (energy `100.0`, edges `[1.0, 2.5, 4.5, 5.0]`, so `n_channels - 1
= ebounds.length - 2 = 2`) the code returns `3`, exactly as
`test__instrument_response_energy_to_channel` asserts. -/
theorem energy_to_channel_clamp_counterexample :
    testResponse.energy_to_channel 100 = 3 ∧
      testResponse.energy_to_channel 100 ≠ testResponse.ebounds.length - 2 := by
  constructor <;>
    norm_num [InstrumentResponse.energy_to_channel, testResponse, testEbounds,
      List.countP_cons, List.countP_nil]

/-- C7: `replace_matrix` rejects (with an error and no updated
response) every matrix whose shape differs from the stored edge shape,
and accepts every shape-matching matrix regardless of values, the
result holding the new matrix with edges and provenance filenames
unchanged. -/
theorem replace_matrix_spec (rsp : InstrumentResponse) (new_matrix : List (List ℚ)) :
    (matrixShapeMatches new_matrix rsp.ebounds rsp.monte_carlo_energies = false →
        rsp.replace_matrix new_matrix = Except.error "replace_matrix: shape mismatch") ∧
    (matrixShapeMatches new_matrix rsp.ebounds rsp.monte_carlo_energies = true →
        rsp.replace_matrix new_matrix =
          Except.ok
            { matrix := new_matrix,
              ebounds := rsp.ebounds,
              monte_carlo_energies := rsp.monte_carlo_energies,
              coverage_interval := rsp.coverage_interval,
              rsp_filename := rsp.rsp_filename,
              arf_filename := rsp.arf_filename }) := by
  unfold InstrumentResponse.replace_matrix
  constructor
  · intro h
    rw [if_neg (by simp [h])]
  · intro h
    rw [if_pos h]

/-- Witness for C7: the test-suite response rejects a 1x1 matrix and
accepts a 3x4 matrix of zeros. -/
theorem replace_matrix_spec_witness :
    testResponse.replace_matrix [[5]] =
        Except.error "replace_matrix: shape mismatch" ∧
      testResponse.replace_matrix
          [[0, 0, 0, 0], [0, 0, 0, 0], [0, 0, 0, 0]] =
        Except.ok
          { matrix := [[0, 0, 0, 0], [0, 0, 0, 0], [0, 0, 0, 0]],
            ebounds := testEbounds,
            monte_carlo_energies := testMcEnergies,
            coverage_interval := none,
            rsp_filename := none,
            arf_filename := none } :=
  ⟨(replace_matrix_spec testResponse [[5]]).1
      (by simp [matrixShapeMatches, testResponse, testEbounds, testMcEnergies]),
    (replace_matrix_spec testResponse
        [[0, 0, 0, 0], [0, 0, 0, 0], [0, 0, 0, 0]]).2
      (by simp [matrixShapeMatches, testResponse, testEbounds, testMcEnergies])⟩

/-- Parsing the interval expression `"5.0 - 25.0"` of the tests. -/
theorem parse_5_25 : parseTimeInterval "5.0 - 25.0" = some ⟨5, 25⟩ := by
  rw [show parseTimeInterval "5.0 - 25.0" =
      some ⟨ratOfParts (5, 0, 1), ratOfParts (25, 0, 1)⟩ from rfl]
  norm_num [ratOfParts]

/-- Parsing the interval expression `"0.0 - 30.0"` of the tests. -/
theorem parse_0_30 : parseTimeInterval "0.0 - 30.0" = some ⟨0, 30⟩ := by
  rw [show parseTimeInterval "0.0 - 30.0" =
      some ⟨ratOfParts (0, 0, 1), ratOfParts (30, 0, 1)⟩ from rfl]
  norm_num [ratOfParts]

/-- Parsing the interval expression `"5.0 - 12.0"` of the tests. -/
theorem parse_5_12 : parseTimeInterval "5.0 - 12.0" = some ⟨5, 12⟩ := by
  rw [show parseTimeInterval "5.0 - 12.0" =
      some ⟨ratOfParts (5, 0, 1), ratOfParts (12, 0, 1)⟩ from rfl]
  norm_num [ratOfParts]

/-- Parsing the whitespace-free interval expression `"25.0-28.0"` of
the tests. -/
theorem parse_25_28 : parseTimeInterval "25.0-28.0" = some ⟨25, 28⟩ := by
  rw [show parseTimeInterval "25.0-28.0" =
      some ⟨ratOfParts (25, 0, 1), ratOfParts (28, 0, 1)⟩ from rfl]
  norm_num [ratOfParts]

/-- Parsing the interval expression `"105.0 - 125.0"`. -/
theorem parse_105_125 : parseTimeInterval "105.0 - 125.0" = some ⟨105, 125⟩ := by
  rw [show parseTimeInterval "105.0 - 125.0" =
      some ⟨ratOfParts (105, 0, 1), ratOfParts (125, 0, 1)⟩ from rfl]
  norm_num [ratOfParts]

/-- C5: the `InstrumentResponseSet` constructor fails with an error —
producing no set — whenever some supplied response has no coverage
interval, or whenever the coverage intervals sorted ascending by start
are not mutually contiguous (a gap or an overlap). -/
theorem response_set_constructor_rejects (rsps : List InstrumentResponse) (ref : ℚ)
    (h : (∃ r ∈ rsps, r.coverage_interval = none) ∨
      ¬ contiguousCoverage ((sortByCoverageStart rsps).filterMap
          fun r => r.coverage_interval)) :
    ∃ msg, buildResponseSet rsps ref = Except.error msg := by
  simp only [buildResponseSet]
  split_ifs with h1 h2
  · exact ⟨_, rfl⟩
  · exfalso
    rcases h with ⟨r, hr, hnone⟩ | hcontig
    · exact h1 (List.any_eq_true.mpr ⟨r, hr, by simp [hnone]⟩)
    · exact hcontig h2
  · exact ⟨_, rfl⟩

/-- Witness for C5: the test-suite's gap pair (coverage `[0, 10]` and
`[20, 30]`) is rejected. -/
theorem response_set_constructor_rejects_witness :
    ∃ msg, buildResponseSet [rspGapC, rspGapD] 0 = Except.error msg :=
  response_set_constructor_rejects [rspGapC, rspGapD] 0
    (Or.inr (by
      norm_num [sortByCoverageStart, List.insertionSort, List.orderedInsert,
        coverageStart, rspGapC, rspGapD, contiguousCoverage,
        List.filterMap_cons, List.chain'_cons]))

/-- Element-wise sum of two scalings of the same vector. -/
theorem vecAdd_smul (a b : ℚ) : ∀ row : List ℚ,
    vecAdd (row.map fun x => a * x) (row.map fun x => b * x) =
      row.map fun x => (a + b) * x
  | [] => rfl
  | x :: xs => by
    simp only [List.map_cons, vecAdd, List.zipWith_cons_cons]
    refine congrArg₂ _ (by ring) ?_
    exact vecAdd_smul a b xs

/-- Entry-wise sum of two scalings of the same matrix. -/
theorem matAdd_matScale (a b : ℚ) : ∀ m : List (List ℚ),
    matAdd (matScale a m) (matScale b m) = matScale (a + b) m
  | [] => rfl
  | row :: tl => by
    simp only [matScale, List.map_cons, matAdd, List.zipWith_cons_cons]
    refine congrArg₂ _ ?_ ?_
    · exact vecAdd_smul a b row
    · exact matAdd_matScale a b tl

/-- Composition of two matrix scalings. -/
theorem matScale_matScale (a b : ℚ) (m : List (List ℚ)) :
    matScale a (matScale b m) = matScale (a * b) m := by
  simp [matScale, List.map_map, Function.comp, mul_assoc]

/-- The weight-normalised sum of a matrix and a scaled copy of
itself. -/
theorem weightedMatrixSum_pair (w1 w2 c : ℚ) (m : List (List ℚ)) :
    weightedMatrixSum [w1, w2] [m, matScale c m] =
      matScale (w1 / (w1 + w2) + w2 / (w1 + w2) * c) m := by
  simp only [weightedMatrixSum, List.zipWith_cons_cons, List.zipWith_nil,
    List.sum_cons, List.sum_nil, List.foldl_cons, List.foldl_nil,
    matScale_matScale, matAdd_matScale]
  congr 1
  ring

/-- The exposure weights of the test-suite configuration for the query
`[5, 25]`: `0.9*5 = 4.5` and `0.9*15 = 13.5`. -/
theorem exposure_weights_5_25 (m : List (List ℚ)) :
    accumulatedWeights ⟨[rspA m 0, rspB m 0], 0⟩ testExposureGetter [⟨5, 25⟩] =
      [9/2, 27/2] := by
  norm_num [accumulatedWeights, perIntervalWeights, vecAdd, segmentWeight,
    rspA, rspB, TimeInterval.shiftBy, TimeInterval.overlapsWith,
    TimeInterval.intersect, testExposureGetter, max_def, min_def,
    List.replicate, List.zipWith_cons_cons, List.zipWith_nil]

/-- C2: for the test-suite set — two responses on the same axes, the
second matrix half the first, coverage `[0,10)` and `[10,30)`, exposure
getter `0.9*(t2-t1)` per segment — construction succeeds and
`weight_by_exposure "5.0 - 25.0"` returns an `InstrumentResponse`
whose matrix is exactly `0.625` times the first matrix (weights `4.5`
and `13.5` normalised by their sum `18`, i.e.
`merged = Σ_k (w_k/Σw) * matrix_k`). -/
theorem weight_by_exposure_test (m : List (List ℚ)) :
    buildResponseSet [rspA m 0, rspB m 0] 0 =
        Except.ok ⟨[rspA m 0, rspB m 0], 0⟩ ∧
      InstrumentResponseSet.weight_by_exposure ⟨[rspA m 0, rspB m 0], 0⟩
          testExposureGetter ["5.0 - 25.0"] =
        some ⟨matScale (5/8) m, testEbounds, testMcEnergies, none, none,
          none⟩ := by
  constructor
  · norm_num [buildResponseSet, rspA, rspB, sortByCoverageStart,
      List.insertionSort, List.orderedInsert, coverageStart,
      TimeInterval.shiftBy, contiguousCoverage, List.filterMap_cons,
      List.chain'_cons]
  · rw [InstrumentResponseSet.weight_by_exposure, weightByGetter]
    simp only [parseIntervals, parse_5_25]
    rw [exposure_weights_5_25]
    simp only [List.map_cons, List.map_nil]
    rw [show (rspA m 0).matrix = m from rfl,
      show (rspB m 0).matrix = matScale (1/2) m from rfl,
      weightedMatrixSum_pair]
    rw [show (9/2 : ℚ) / (9/2 + 27/2) + (27/2) / (9/2 + 27/2) * (1/2) = 5/8 by
      norm_num]
    rfl

/-- `getD` distributes over element-wise vector addition. -/
theorem vecAdd_getD (xs ys : List ℚ) (k : ℕ) (hx : k < xs.length)
    (hy : k < ys.length) :
    (vecAdd xs ys).getD k 0 = xs.getD k 0 + ys.getD k 0 := by
  have hk : k < (vecAdd xs ys).length := by
    simp [vecAdd, List.length_zipWith]
    omega
  rw [List.getD_eq_getElem _ _ hk, List.getD_eq_getElem _ _ hx,
    List.getD_eq_getElem _ _ hy]
  simp [vecAdd, List.getElem_zipWith]

/-- The weight-accumulation fold adds, entry by entry, the per-interval
segment weights on top of the starting vector. -/
theorem accWeights_foldl (s : InstrumentResponseSet) (getter : ℚ → ℚ → ℚ) (k : ℕ)
    (hk : k < s.responses.length) :
    ∀ (ivs : List TimeInterval) (acc : List ℚ), acc.length = s.responses.length →
      (ivs.foldl (fun a iv => vecAdd a (perIntervalWeights s getter iv)) acc).getD k 0 =
        acc.getD k 0 + (ivs.map fun iv =>
          segmentWeight getter s.reference_time s.responses[k] iv).sum
  | [], acc, _ => by simp
  | iv :: rest, acc, hlen => by
    have hpl : (perIntervalWeights s getter iv).length = s.responses.length := by
      simp [perIntervalWeights]
    have hv : (vecAdd acc (perIntervalWeights s getter iv)).length =
        s.responses.length := by
      simp [vecAdd, List.length_zipWith, hlen, hpl]
    rw [List.foldl_cons, accWeights_foldl s getter k hk rest _ hv,
      vecAdd_getD _ _ k (by omega) (by omega)]
    have hp : (perIntervalWeights s getter iv).getD k 0 =
        segmentWeight getter s.reference_time s.responses[k] iv := by
      rw [perIntervalWeights, List.getD_eq_getElem _ _ (by simpa using hk),
        List.getElem_map]
    rw [hp, List.map_cons, List.sum_cons]
    ring

/-- C3: `weight_by_exposure`/`weight_by_counts` are additive over the
requested intervals: for every response set, getter and list of
interval strings parsing to intervals `ivs`, the pre-normalisation
weight accumulated for the `k`-th response is the sum over all
requested intervals of that interval's per-segment getter weight; in
particular `weight_by_counts` over `"5.0 - 12.0"` and `"25.0-28.0"`
(reference time `123.456`) gives the second response the weight
`counts_getter(10,12) + counts_getter(25,28)`. -/
theorem weights_additive_over_intervals (s : InstrumentResponseSet)
    (getter : ℚ → ℚ → ℚ) (strs : List String) (ivs : List TimeInterval)
    (hparse : parseIntervals strs = some ivs) (k : ℕ)
    (hk : k < s.responses.length) :
    (accumulatedWeights s getter ivs).getD k 0 =
      (ivs.map fun iv =>
        segmentWeight getter s.reference_time s.responses[k] iv).sum ∧
    parseIntervals ["5.0 - 12.0", "25.0-28.0"] = some [⟨5, 12⟩, ⟨25, 28⟩] ∧
    (accumulatedWeights
        ⟨[rspA testMatrix (123456/1000), rspB testMatrix (123456/1000)],
          123456/1000⟩ testCountsGetter [⟨5, 12⟩, ⟨25, 28⟩]).getD 1 0 =
      testCountsGetter 10 12 + testCountsGetter 25 28 := by
  refine ⟨?_, ?_, ?_⟩
  · rw [accumulatedWeights, accWeights_foldl s getter k hk ivs _ (by simp),
      List.getD_eq_getElem _ _ (by simpa using hk)]
    simp
  · simp only [parseIntervals, parse_5_12, parse_25_28]
  · norm_num [accumulatedWeights, perIntervalWeights, vecAdd, segmentWeight,
      rspA, rspB, TimeInterval.shiftBy, TimeInterval.overlapsWith,
      TimeInterval.intersect, testCountsGetter, max_def, min_def,
      List.replicate, List.zipWith_cons_cons, List.zipWith_nil]

/-- Witness for C3: the theorem applied to the disjoint-interval test
configuration (`reference_time = 123.456`, counts getter, second
response). -/
theorem weights_additive_over_intervals_witness :
    (accumulatedWeights
        ⟨[rspA testMatrix (123456/1000), rspB testMatrix (123456/1000)],
          123456/1000⟩ testCountsGetter [⟨5, 12⟩, ⟨25, 28⟩]).getD 1 0 =
      testCountsGetter 10 12 + testCountsGetter 25 28 :=
  (weights_additive_over_intervals
    ⟨[rspA testMatrix (123456/1000), rspB testMatrix (123456/1000)],
      123456/1000⟩ testCountsGetter ["5.0 - 12.0", "25.0-28.0"]
    [⟨5, 12⟩, ⟨25, 28⟩]
    (by simp only [parseIntervals, parse_5_12, parse_25_28]) 1
    (by simp)).2.2

/-- A segment weight is unchanged when the coverage interval and the
reference time are translated together: only the relative frame
matters. -/
theorem segmentWeight_shift (getter : ℚ → ℚ → ℚ) (ref dt : ℚ)
    (r : InstrumentResponse) (iv : TimeInterval) :
    segmentWeight getter (ref + dt) (shiftCoverage r dt) iv =
      segmentWeight getter ref r iv := by
  rcases r with ⟨mat, eb, mc, cov, f1, f2⟩
  cases cov with
  | none => rfl
  | some c =>
    simp only [segmentWeight, shiftCoverage, Option.map_some',
      TimeInterval.shiftBy]
    have h1 : c.start + dt - (ref + dt) = c.start - ref := by ring
    have h2 : c.stop + dt - (ref + dt) = c.stop - ref := by ring
    rw [h1, h2]

/-- C6 (amended): during the weighting operations the getters are
invoked on reference-frame (relative) segment bounds — segment start
and stop minus `reference_time` — not on absolute bounds: translating
every coverage interval and the reference time together leaves all
weights unchanged, and at the test configuration
(`reference_time = 100`, coverage `[100,110)` and `[110,130)`, query
`[5,25]` relative) the quadratic counts getter receives exactly the
relative bounds `(5,10)` and `(10,25)`. -/
theorem weights_reference_frame (rsps : List InstrumentResponse) (ref dt : ℚ)
    (getter : ℚ → ℚ → ℚ) (ivs : List TimeInterval) :
    accumulatedWeights ⟨rsps.map fun r => shiftCoverage r dt, ref + dt⟩
        getter ivs =
      accumulatedWeights ⟨rsps, ref⟩ getter ivs ∧
    accumulatedWeights ⟨[rspA testMatrix 100, rspB testMatrix 100], 100⟩
        testCountsGetter [⟨5, 25⟩] =
      [testCountsGetter 5 10, testCountsGetter 10 25] := by
  constructor
  · have hmap : ∀ iv : TimeInterval,
        perIntervalWeights ⟨rsps.map fun r => shiftCoverage r dt, ref + dt⟩
            getter iv =
          perIntervalWeights ⟨rsps, ref⟩ getter iv := by
      intro iv
      simp only [perIntervalWeights, List.map_map]
      refine List.map_congr_left fun r _ => ?_
      exact segmentWeight_shift getter ref dt r iv
    simp only [accumulatedWeights, List.length_map]
    congr 1
    funext a iv
    rw [hmap]
  · norm_num [accumulatedWeights, perIntervalWeights, vecAdd, segmentWeight,
      rspA, rspB, TimeInterval.shiftBy, TimeInterval.overlapsWith,
      TimeInterval.intersect, testCountsGetter, max_def, min_def,
      List.replicate, List.zipWith_cons_cons, List.zipWith_nil]

/-- C6 counterexample: the same responses (absolute coverage `[100,110)`
and `[110,130)`) queried over the same absolute window `[105, 125]`,
framed once relative to `reference_time = 100` (query `[5, 25]`) and
once relative to `reference_time = 0` (query `[105, 125]`), receive
different weights under the quadratic counts getter — so the getters
are not invoked on absolute bounds and the weights do depend on the
reference-time framing. -/
theorem getter_absolute_time_counterexample :
    accumulatedWeights ⟨[rspA testMatrix 100, rspB testMatrix 100], 100⟩
        testCountsGetter [⟨5, 25⟩] ≠
      accumulatedWeights ⟨[rspA testMatrix 100, rspB testMatrix 100], 0⟩
        testCountsGetter [⟨105, 125⟩] := by
  rw [show accumulatedWeights ⟨[rspA testMatrix 100, rspB testMatrix 100], 100⟩
      testCountsGetter [⟨5, 25⟩] = [3321/80, 23247/80] by
    norm_num [accumulatedWeights, perIntervalWeights, vecAdd, segmentWeight,
      rspA, rspB, TimeInterval.shiftBy, TimeInterval.overlapsWith,
      TimeInterval.intersect, testCountsGetter, max_def, min_def,
      List.replicate, List.zipWith_cons_cons, List.zipWith_nil]]
  rw [show accumulatedWeights ⟨[rspA testMatrix 100, rspB testMatrix 100], 0⟩
      testCountsGetter [⟨105, 125⟩] = [47601/80, 156087/80] by
    norm_num [accumulatedWeights, perIntervalWeights, vecAdd, segmentWeight,
      rspA, rspB, TimeInterval.shiftBy, TimeInterval.overlapsWith,
      TimeInterval.intersect, testCountsGetter, max_def, min_def,
      List.replicate, List.zipWith_cons_cons, List.zipWith_nil]]
  norm_num


/-- Reading back the digits of the fuel-structured renderer. -/
theorem digitsVal_natDigitsAux :
    ∀ (fuel n : ℕ), n < fuel → digitsVal (natDigitsAux fuel n) = n
  | 0, n, h => by omega
  | fuel + 1, n, h => by
    rw [natDigitsAux]
    by_cases h10 : n < 10
    · rw [if_pos h10]
      interval_cases n <;> rfl
    · rw [if_neg h10]
      have hlt : n / 10 < fuel := by
        have := Nat.div_lt_self (show 0 < n by omega) (show 1 < 10 by omega)
        omega
      have ih := digitsVal_natDigitsAux fuel (n / 10) hlt
      have hchar : (natDigitChar (n % 10)).toNat = 48 + n % 10 := by
        have hm : n % 10 < 10 := Nat.mod_lt _ (by omega)
        interval_cases h : n % 10 <;> rfl
      simp only [digitsVal, List.foldl_append, List.foldl_cons, List.foldl_nil] at ih ⊢
      rw [ih, hchar]
      have := Nat.div_add_mod n 10
      omega

/-- `digitsVal` is a left inverse of the decimal renderer. -/
theorem digitsVal_natDigits (n : ℕ) : digitsVal (natDigits n) = n :=
  digitsVal_natDigitsAux (n + 1) n (by omega)

/-- The decimal rendering of naturals is injective. -/
theorem natDigits_inj {a b : ℕ} (h : natDigits a = natDigits b) : a = b := by
  have := digitsVal_natDigits a
  rw [h, digitsVal_natDigits] at this
  omega

/-- Candidate keys with distinct non-negative indices are distinct. -/
theorem mkCand_inj (base : List Char) {a b : ℕ}
    (h : mkCand base ((a : ℤ)) = mkCand base ((b : ℤ))) : a = b := by
  rw [show mkCand base ((a : ℤ)) = ⟨base ++ '_' :: natDigits a⟩ from rfl,
    show mkCand base ((b : ℤ)) = ⟨base ++ '_' :: natDigits b⟩ from rfl] at h
  injection h with h
  have h2 := List.append_cancel_left h
  exact natDigits_inj (by injection h2)

/-- Pigeonhole: a scan range longer than the key set contains a free
candidate. -/
theorem exists_free_cand (taken : List String) (base : List Char) (lo fuel : ℕ)
    (h : taken.length < fuel) :
    ∃ t : ℕ, t < fuel ∧ mkCand base ((lo : ℤ) + t) ∉ taken := by
  by_contra hall
  push_neg at hall
  have hsub : ((List.range fuel).map fun t : ℕ => mkCand base ((lo : ℤ) + (t : ℤ))) ⊆ taken := by
    intro x hx
    rcases List.mem_map.mp hx with ⟨t, ht, rfl⟩
    exact hall t (List.mem_range.mp ht)
  have hnd : ((List.range fuel).map fun t : ℕ => mkCand base ((lo : ℤ) + (t : ℤ))).Nodup := by
    refine (List.nodup_range fuel).map_on ?_
    intro x _ y _ hxy
    have hx : (lo : ℤ) + x = ((lo + x : ℕ) : ℤ) := by push_cast; ring
    have hy : (lo : ℤ) + y = ((lo + y : ℕ) : ℤ) := by push_cast; ring
    rw [hx, hy] at hxy
    have := mkCand_inj base hxy
    omega
  have := (List.subperm_of_subset hnd hsub).length_le
  simp at this
  omega


/-- The renaming scan binds the first candidate not yet present. -/
theorem scanNewKey_first_free (taken : List String) (base : List Char) :
    ∀ (fuel : ℕ) (lo : ℤ),
      (∃ t : ℕ, t < fuel ∧ mkCand base (lo + t) ∉ taken) →
      ∃ t0 : ℕ, t0 < fuel ∧
        scanNewKey taken base fuel lo = some (mkCand base (lo + t0)) ∧
        mkCand base (lo + t0) ∉ taken ∧
        ∀ u : ℕ, u < t0 → mkCand base (lo + u) ∈ taken
  | 0, lo, h => by rcases h with ⟨t, ht, _⟩; omega
  | fuel + 1, lo, h => by
    simp only [scanNewKey]
    by_cases hc : mkCand base lo ∈ taken
    · rw [if_pos (by simpa using hc)]
      rcases h with ⟨t, ht, hfree⟩
      have ht0 : t ≠ 0 := by
        rintro rfl
        simp only [Nat.cast_zero, add_zero] at hfree
        exact hfree hc
      obtain ⟨t', rfl⟩ : ∃ t', t = t' + 1 := ⟨t - 1, by omega⟩
      have hfuel : fuel ≠ 0 := by omega
      rw [if_neg hfuel]
      have hex : ∃ u : ℕ, u < fuel ∧ mkCand base ((lo + 1) + u) ∉ taken := by
        refine ⟨t', by omega, ?_⟩
        have hcast : (lo + 1) + (t' : ℤ) = lo + ((t' + 1 : ℕ) : ℤ) := by
          push_cast; ring
        rw [hcast]
        exact hfree
      obtain ⟨t0, ht0lt, hscan, hfree0, hmin⟩ :=
        scanNewKey_first_free taken base fuel (lo + 1) hex
      refine ⟨t0 + 1, by omega, ?_, ?_, ?_⟩
      · rw [hscan]
        have hcast : (lo + 1) + (t0 : ℤ) = lo + ((t0 + 1 : ℕ) : ℤ) := by
          push_cast; ring
        rw [hcast]
      · have hcast : lo + ((t0 + 1 : ℕ) : ℤ) = (lo + 1) + t0 := by push_cast; ring
        rw [hcast]; exact hfree0
      · intro u hu
        cases u with
        | zero => simpa using hc
        | succ u' =>
          have hcast : lo + ((u' + 1 : ℕ) : ℤ) = (lo + 1) + u' := by
            push_cast; ring
          rw [hcast]
          exact hmin u' (by omega)
    · rw [if_neg (by simpa using hc)]
      exact ⟨0, by omega, by simp, by simpa using hc, by omega⟩

/-- `splitOnChar` never returns the empty list. -/
theorem splitOnChar_ne_nil (sep : Char) : ∀ cs : List Char, splitOnChar sep cs ≠ []
  | [] => by simp [splitOnChar]
  | c :: cs => by
    simp only [splitOnChar]
    split_ifs <;> simp

/-- A one-token split means the separator does not occur. -/
theorem splitOnChar_eq_single (sep : Char) :
    ∀ cs : List Char, (splitOnChar sep cs).length = 1 → splitOnChar sep cs = [cs]
  | [], _ => rfl
  | c :: cs, h => by
    simp only [splitOnChar] at h ⊢
    by_cases hcs : c = sep
    · rw [if_pos hcs] at h
      simp only [List.length_cons] at h
      exact absurd (List.length_eq_zero.mp (by omega)) (splitOnChar_ne_nil sep cs)
    · rw [if_neg hcs] at h ⊢
      simp only [List.length_cons] at h
      have htl : (splitOnChar sep cs).tail = [] := List.length_eq_zero.mp (by omega)
      have hne := splitOnChar_ne_nil sep cs
      obtain ⟨x, xs, hx⟩ : ∃ x xs, splitOnChar sep cs = x :: xs :=
        List.exists_cons_of_ne_nil hne
      rw [hx] at htl
      simp only [List.tail_cons] at htl
      subst htl
      have hrec : splitOnChar sep cs = [cs] := by
        apply splitOnChar_eq_single sep cs
        rw [hx]; rfl
      rw [hx] at hrec
      simp only [List.cons.injEq] at hrec
      simp [hx, hrec.1]

/-- Appending `sep :: [c2]` to a separator-free list splits into the
list and `[c2]`. -/
theorem splitOnChar_append_sep (sep c2 : Char) (hc2 : c2 ≠ sep) :
    ∀ cs : List Char, splitOnChar sep cs = [cs] →
      splitOnChar sep (cs ++ [sep, c2]) = [cs, [c2]]
  | [], _ => by
    simp only [List.nil_append, splitOnChar, if_pos rfl, if_neg hc2]
    rfl
  | c :: cs, h => by
    simp only [splitOnChar] at h
    by_cases hcs : c = sep
    · rw [if_pos hcs] at h
      simp at h
    · rw [if_neg hcs] at h
      have hne := splitOnChar_ne_nil sep cs
      obtain ⟨x, xs, hx⟩ : ∃ x xs, splitOnChar sep cs = x :: xs :=
        List.exists_cons_of_ne_nil hne
      rw [hx] at h
      simp only [List.headD_cons, List.tail_cons, List.cons.injEq] at h
      obtain ⟨⟨hcx, hxcs⟩, hxs⟩ := h
      have hsingle : splitOnChar sep cs = [cs] := by rw [hx, hxs, hxcs]
      have ih := splitOnChar_append_sep sep c2 hc2 cs hsingle
      simp only [List.cons_append, splitOnChar, if_neg hcs, List.append_eq, ih]
      rfl


/-- Under a well-formed key and fewer than 499 existing keys, the
renaming rule always yields a key not yet present. -/
theorem newKeyFor_fresh (taken : List String) (k : String)
    (hwf : keyWellFormed k) (hlen : taken.length < 499) :
    ∃ nk, newKeyFor taken k = some nk ∧ nk ∉ taken := by
  simp only [newKeyFor]
  by_cases hc : k ∈ taken
  · rw [if_pos (by simpa using hc)]
    rcases hwf with hplain | ⟨n, hn, hparse⟩
    · have htok : splitOnChar '_' k.toList = [k.toList] :=
        splitOnChar_eq_single '_' k.toList hplain
      have htok2 : splitOnChar '_' (k.toList ++ ['_', '1']) = [k.toList, ['1']] :=
        splitOnChar_append_sep '_' '1' (by decide) k.toList htok
      rw [htok, if_pos (show ([k.toList] : List (List Char)).length = 1 from rfl),
        htok2]
      have hparse1 : chrsToInt ([k.toList, ['1']].getD 1 []) = some 1 := rfl
      rw [hparse1]
      have hfree : ∃ t : ℕ, t < 999 ∧
          mkCand k.toList (((1 : ℕ) : ℤ) + t) ∉ taken :=
        exists_free_cand taken k.toList 1 999 (by omega)
      have hfree2 : ∃ t : ℕ, t < 999 ∧ mkCand k.toList ((1 : ℤ) + t) ∉ taken := by
        simpa using hfree
      obtain ⟨t0, _, hscan, hfr, _⟩ :=
        scanNewKey_first_free taken k.toList 999 1 hfree2
      exact ⟨_, by exact hscan, hfr⟩
    · have hne1 : (splitOnChar '_' k.toList).length ≠ 1 := by
        intro h1
        rw [splitOnChar_eq_single '_' k.toList h1] at hparse
        rw [show ([k.toList] : List (List Char)).getD 1 [] = [] from rfl] at hparse
        rw [show chrsToInt [] = none from rfl] at hparse
        exact Option.noConfusion hparse
      rw [if_neg hne1, hparse]
      have hfree : ∃ t : ℕ, t < ((1000 : ℤ) - (n : ℤ)).toNat ∧
          mkCand ((splitOnChar '_' k.toList).headD []) (((n : ℕ) : ℤ) + t) ∉ taken :=
        exists_free_cand taken _ n _ (by omega)
      obtain ⟨t0, _, hscan, hfr, _⟩ :=
        scanNewKey_first_free taken ((splitOnChar '_' k.toList).headD [])
          (((1000 : ℤ) - (n : ℤ)).toNat) (n : ℤ) hfree
      exact ⟨_, hscan, hfr⟩
  · rw [if_neg (by simpa using hc)]
    exact ⟨k, rfl, hc⟩

/-- Binding a fresh key in an `OrderedDict` appends it. -/
theorem odSet_append {V : Type} (acc : List (String × V)) (nk : String) (v : V)
    (h : nk ∉ acc.map Prod.fst) : odSet acc nk v = acc ++ [(nk, v)] := by
  have hany : (acc.any fun p => p.1 == nk) = false := by
    rw [List.any_eq_false]
    intro p hp
    simp only [beq_iff_eq]
    intro hpk
    exact h (hpk ▸ List.mem_map_of_mem Prod.fst hp)
  rw [odSet, hany]
  simp

/-- The insertion loop of the merge binds every parameter exactly once
under a unique key, preserving the order of the values, whenever all
keys are well formed and there is room in the renaming scan. -/
theorem insertParams_ok {V : Type} :
    ∀ (ps acc : List (String × V)),
      (∀ k ∈ ps.map Prod.fst, keyWellFormed k) →
      (acc.map Prod.fst).Nodup →
      acc.length + ps.length ≤ 400 →
      ∃ m, insertParams acc ps = some m ∧ (m.map Prod.fst).Nodup ∧
        m.map Prod.snd = acc.map Prod.snd ++ ps.map Prod.snd
  | [], acc, _, hnd, _ => ⟨acc, rfl, hnd, by simp [insertParams]⟩
  | (k, v) :: rest, acc, hwf, hnd, hlen => by
    have hk : keyWellFormed k := hwf k (by simp)
    obtain ⟨nk, hnk, hfresh⟩ :=
      newKeyFor_fresh (acc.map Prod.fst) k hk
        (by simp only [List.length_map]; simp at hlen; omega)
    simp only [insertParams, hnk]
    rw [odSet_append acc nk v hfresh]
    have hnd2 : ((acc ++ [(nk, v)]).map Prod.fst).Nodup := by
      simp only [List.map_append, List.map_cons, List.map_nil]
      rw [List.nodup_append]
      refine ⟨hnd, List.nodup_singleton _, ?_⟩
      intro a ha hb
      simp only [List.mem_singleton] at hb
      subst hb
      exact hfresh ha
    obtain ⟨m, hm, hmnd, hmv⟩ := insertParams_ok rest (acc ++ [(nk, v)])
      (fun k2 hk2 => hwf k2 (by simp at hk2 ⊢; exact Or.inr hk2))
      hnd2 (by simp at hlen ⊢; omega)
    refine ⟨m, hm, hmnd, ?_⟩
    rw [hmv]
    simp

/-- C8: when `CompositeModel.__init__` merges the parameter maps of
its two components (all keys plain or `base_n`-shaped with `n <= 500`,
at most 400 parameters), a colliding name is renamed by scanning the
candidates `base_i` upward from the colliding index and binding the
first candidate not yet present, and the merged map contains every
component parameter exactly once under a unique key, in component
order. -/
theorem composite_merge_unique_keys {V : Type} (one two : PyModel V) (op : PyOp)
    (hwf : ∀ k ∈ (one.parameters ++ two.parameters).map Prod.fst, keyWellFormed k)
    (hlen : (one.parameters ++ two.parameters).length ≤ 400) :
    (∃ m, mergeParams one.parameters two.parameters = some m ∧
        (m.map Prod.fst).Nodup ∧
        m.map Prod.snd = (one.parameters ++ two.parameters).map Prod.snd ∧
        ∃ c, compositeInit (.mdl one) (.mdl two) op = some c ∧
          c.parameters = m) ∧
    (∀ (taken : List String) (base : List Char) (fuel : ℕ) (lo : ℤ) (t : ℕ),
        t < fuel → mkCand base (lo + t) ∉ taken →
        ∃ t0 : ℕ, t0 ≤ t ∧
          scanNewKey taken base fuel lo = some (mkCand base (lo + t0)) ∧
          mkCand base (lo + t0) ∉ taken ∧
          ∀ u : ℕ, u < t0 → mkCand base (lo + u) ∈ taken) := by
  constructor
  · obtain ⟨m, hm, hnd, hv⟩ := insertParams_ok (one.parameters ++ two.parameters) []
      hwf (by simp) (by simpa using hlen)
    have hmerge : mergeParams one.parameters two.parameters = some m := hm
    refine ⟨m, hmerge, hnd, by simpa using hv, ?_⟩
    simp only [compositeInit, operandParams, hmerge]
    exact ⟨_, rfl, rfl⟩
  · intro taken base fuel lo t ht hfree
    obtain ⟨t0, ht0, hscan, hfr, hmin⟩ :=
      scanNewKey_first_free taken base fuel lo ⟨t, ht, hfree⟩
    refine ⟨t0, ?_, hscan, hfr, hmin⟩
    by_contra hgt
    push_neg at hgt
    exact hfree (hmin t hgt)

/-- Witness for C8: merging `sampleModelK` (parameters `K`, `index`)
with `sampleModelK2` (parameter `K`) gives a duplicate-free map with
all three values, the collision bound as `K_1`. -/
theorem composite_merge_unique_keys_witness :
    ∃ m, mergeParams sampleModelK.parameters sampleModelK2.parameters = some m ∧
      (m.map Prod.fst).Nodup ∧
      m.map Prod.snd =
        (sampleModelK.parameters ++ sampleModelK2.parameters).map Prod.snd ∧
      ∃ c, compositeInit (.mdl sampleModelK) (.mdl sampleModelK2) PyOp.add =
          some c ∧ c.parameters = m :=
  (composite_merge_unique_keys sampleModelK sampleModelK2 PyOp.add
    (by
      intro k hk
      have hk2 : k = "K" ∨ k = "index" ∨ k = "K" := by
        simpa [sampleModelK, sampleModelK2] using hk
      rcases hk2 with rfl | rfl | rfl <;> exact Or.inl rfl)
    (by simp [sampleModelK, sampleModelK2])).1

/-- C9: for model operands `m1`, `m2` and every operator tag, the
composite built by `CompositeModel.__init__` defines
`integral(e1,e2) = m1.integral(e1,e2) + m2.integral(e1,e2)` — always
the sum of the component integrals, regardless of the operator — even
though `__call__(x)` applies the chosen operator to the component
values. -/
theorem composite_integral_sum {V : Type} (m1 m2 : PyModel V) (op : PyOp)
    (ps : List (String × V))
    (hps : mergeParams m1.parameters m2.parameters = some ps)
    (e1 e2 x : ℚ) :
    ∃ c, compositeInit (.mdl m1) (.mdl m2) op = some c ∧
      c.integralFn e1 e2 = some (m1.integral e1 e2 + m2.integral e1 e2) ∧
      c.callFn x = op.apply (m1.call x) (m2.call x) := by
  simp only [compositeInit, operandParams, hps]
  exact ⟨_, rfl, rfl, rfl⟩

/-- Witness for C9: the composite of the two sample models under
multiplication integrates to the sum of the component integrals while
evaluating with the product. -/
theorem composite_integral_sum_witness :
    ∃ c, compositeInit (.mdl sampleModelK) (.mdl sampleModelK2) PyOp.mul =
        some c ∧
      c.integralFn 1 3 =
        some (sampleModelK.integral 1 3 + sampleModelK2.integral 1 3) ∧
      c.callFn 2 = PyOp.mul.apply (sampleModelK.call 2) (sampleModelK2.call 2) :=
  composite_integral_sum sampleModelK sampleModelK2 PyOp.mul
    [("K", 0), ("index", 1), ("K_1", 2)] (by rfl) 1 3 2

/-- C10: the reflected operators of `SpectralModel` are not commuted:
`__rsub__(b)` and `__rdiv__(b)` build `CompositeModel(self, b, op)`
whose evaluation at `x` is `op(m(x), b)`, so `b - m` evaluates to
`m(x) - b` and `b / m` to `m(x) / b` (divisor `b ≠ 0`; Python raises
`ZeroDivisionError` at `b = 0`), not to `b - m(x)` and `b / m(x)`. -/
theorem composite_reflected_ops {V : Type} (m : PyModel V) (b x : ℚ)
    (ps : List (String × V)) (hps : mergeParams m.parameters [] = some ps)
    (hb : b ≠ 0) :
    (∃ c, pyRsub m b = some c ∧ c.callFn x = some (m.call x - b)) ∧
    (∃ c, pyRdiv m b = some c ∧ c.callFn x = some (m.call x / b)) := by
  constructor
  · simp only [pyRsub, compositeInit, operandParams, hps]
    exact ⟨_, rfl, rfl⟩
  · simp only [pyRdiv, compositeInit, operandParams, hps]
    refine ⟨_, rfl, ?_⟩
    simp only [PyOp.apply, operandCall, if_neg hb]

/-- Witness for C10: `3 - sampleModelK` evaluates at `2` to
`sampleModelK(2) - 3` and `3 / sampleModelK` to `sampleModelK(2) / 3`. -/
theorem composite_reflected_ops_witness :
    (∃ c, pyRsub sampleModelK 3 = some c ∧
        c.callFn 2 = some (sampleModelK.call 2 - 3)) ∧
    (∃ c, pyRdiv sampleModelK 3 = some c ∧
        c.callFn 2 = some (sampleModelK.call 2 / 3)) :=
  composite_reflected_ops sampleModelK 3 2 [("K", 0), ("index", 1)]
    (by rfl) (by norm_num)
